import Mathlib

/-!
Verification of the document-to-artifact processing pipeline of
`src/backend/controller.js`: the PDF chunk/summarize/combine reduction, the
defensive JSON recovery (`extractJsonFromString`), and the artifact key
validation in `processImage` / `processPdf`.

Strings are modelled as `List Char` (JavaScript string length and `slice`
operate on code units; for the texts considered here this coincides with the
character-list view).  JavaScript's `JSON.parse` is modelled by an executable
recursive-descent parser over a `Json` inductive; numbers keep their source
lexeme (the distinction between e.g. `1` and `1.0` never matters here).
-/

namespace AiSummarizer

/-- Parsed JSON values, as produced by `JSON.parse`.  Object fields keep their
textual order; duplicate keys are resolved by `lookupLast` (JavaScript keeps
the last occurrence). -/
inductive Json where
  | null
  | bool (b : Bool)
  | num (lexeme : List Char)
  | str (s : List Char)
  | arr (elems : List Json)
  | obj (fields : List (List Char × Json))

/-- Last binding of `key` in an object field list: JavaScript object literals
let a later duplicate key overwrite an earlier one. -/
def lookupLast (fields : List (List Char × Json)) (key : List Char) : Option Json :=
  match fields with
  | [] => none
  | (k, v) :: rest =>
    match lookupLast rest key with
    | some r => some r
    | none => if k = key then some v else none

/-- JavaScript member access `j.key` on a parsed JSON value: a field lookup on
objects, `undefined` (here `none`) on every other value. -/
def getField (j : Json) (key : List Char) : Option Json :=
  match j with
  | .obj fields => lookupLast fields key
  | _ => none

/-- Member access through a possibly-`null` value slot (`none` = absent). -/
def getFieldOpt (o : Option Json) (key : List Char) : Option Json :=
  o.bind (fun j => getField j key)

/-- Whether a JSON numeric lexeme denotes zero: the mantissa (everything
before an exponent marker) consists only of `-`, `0` and `.`. -/
def numIsZero (lexeme : List Char) : Bool :=
  (lexeme.takeWhile (fun c => !(c == 'e' || c == 'E'))).all
    (fun c => c == '-' || c == '0' || c == '.')

/-- JavaScript truthiness of a parsed JSON value. -/
def jsTruthy : Json → Bool
  | .null => false
  | .bool b => b
  | .num lexeme => !(numIsZero lexeme)
  | .str s => !s.isEmpty
  | .arr _ => true
  | .obj _ => true

/-- Truthiness of a value slot that may be `null`/`undefined`. -/
def jsTruthyOpt : Option Json → Bool
  | none => false
  | some j => jsTruthy j

/-- Whether `typeof v === "object"` holds for a parsed JSON value.  Note that
`typeof null === "object"` in JavaScript. -/
def jsTypeofObj : Json → Bool
  | .null => true
  | .arr _ => true
  | .obj _ => true
  | _ => false

/-- The `typeof`-object test on a possibly-absent value (`undefined` is not an
object). -/
def jsTypeofObjOpt : Option Json → Bool
  | none => false
  | some j => jsTypeofObj j

/-- Characters removed by JavaScript `String.prototype.trim` (the whitespace
and line-terminator set, restricted to the code points that can occur here). -/
def jsWsB (c : Char) : Bool :=
  c == ' ' || c == '\t' || c == '\n' || c == '\r' || c == '\x0b' || c == '\x0c' ||
    c == ' ' || c == ' ' || c == ' ' || c == '﻿'

/-- JavaScript `String.prototype.trim`. -/
def trimJs (cs : List Char) : List Char :=
  ((cs.dropWhile jsWsB).reverse.dropWhile jsWsB).reverse

/-! ### A model of `JSON.parse`

Executable recursive-descent parser for the JSON grammar, following the
ECMAScript `JSON.parse` semantics: strict grammar, JSON whitespace is only
space/tab/LF/CR, strings reject raw control characters and support the
standard escapes, numbers follow the `-? int frac? exp?` grammar. -/

/-- JSON grammar whitespace (`JSON.parse` skips exactly these). -/
def jsonWsB (c : Char) : Bool :=
  c == ' ' || c == '\t' || c == '\n' || c == '\r'

/-- Skip JSON whitespace. -/
def skipWs (cs : List Char) : List Char := cs.dropWhile jsonWsB

/-- ASCII decimal digit test. -/
def digitB (c : Char) : Bool := '0' ≤ c && c ≤ '9'

/-- ASCII hexadecimal digit test. -/
def hexB (c : Char) : Bool :=
  digitB c || ('a' ≤ c && c ≤ 'f') || ('A' ≤ c && c ≤ 'F')

/-- Value of a hexadecimal digit. -/
def hexVal (c : Char) : Nat :=
  if digitB c then c.toNat - 48
  else if 'a' ≤ c && c ≤ 'f' then c.toNat - 87
  else c.toNat - 55

/-- Parse the body of a JSON string after the opening quote; returns the
decoded characters and the remaining input after the closing quote. -/
def parseStringBody : List Char → Option (List Char × List Char)
  | [] => none
  | c :: rest =>
    if c == '"' then some ([], rest)
    else if c == '\\' then
      match rest with
      | [] => none
      | e :: rest2 =>
        if e == '"' || e == '\\' || e == '/' then
          (parseStringBody rest2).map (fun p => (e :: p.1, p.2))
        else if e == 'b' then (parseStringBody rest2).map (fun p => ('\x08' :: p.1, p.2))
        else if e == 'f' then (parseStringBody rest2).map (fun p => ('\x0c' :: p.1, p.2))
        else if e == 'n' then (parseStringBody rest2).map (fun p => ('\n' :: p.1, p.2))
        else if e == 'r' then (parseStringBody rest2).map (fun p => ('\r' :: p.1, p.2))
        else if e == 't' then (parseStringBody rest2).map (fun p => ('\t' :: p.1, p.2))
        else if e == 'u' then
          match rest2 with
          | h1 :: h2 :: h3 :: h4 :: rest3 =>
            if hexB h1 && hexB h2 && hexB h3 && hexB h4 then
              (parseStringBody rest3).map (fun p =>
                (Char.ofNat (hexVal h1 * 4096 + hexVal h2 * 256 + hexVal h3 * 16 + hexVal h4)
                  :: p.1, p.2))
            else none
          | _ => none
        else none
    else if c.toNat < 32 then none
    else (parseStringBody rest).map (fun p => (c :: p.1, p.2))

/-- Parse the optional exponent part of a JSON number, appending its lexeme to
`acc`. -/
def parseExpPart (acc : List Char) (cs : List Char) : Option (List Char × List Char) :=
  match cs with
  | e :: r =>
    if e == 'e' || e == 'E' then
      let (sgn, r1) :=
        match r with
        | c :: r2 => if c == '+' || c == '-' then ([c], r2) else (([] : List Char), r)
        | [] => ([], r)
      match r1.takeWhile digitB with
      | [] => none
      | _ :: _ => some (acc ++ e :: sgn ++ r1.takeWhile digitB, r1.dropWhile digitB)
    else some (acc, cs)
  | [] => some (acc, cs)

/-- Parse the optional fraction part of a JSON number, then the exponent. -/
def parseFracPart (acc : List Char) (cs : List Char) : Option (List Char × List Char) :=
  match cs with
  | '.' :: r =>
    match r.takeWhile digitB with
    | [] => none
    | _ :: _ => parseExpPart (acc ++ '.' :: r.takeWhile digitB) (r.dropWhile digitB)
  | _ => parseExpPart acc cs

/-- Parse a JSON number, returning its lexeme and the remaining input. -/
def parseNumber (cs : List Char) : Option (List Char × List Char) :=
  let (sign, cs1) :=
    match cs with
    | c :: r => if c == '-' then ([c], r) else (([] : List Char), cs)
    | [] => ([], cs)
  match cs1 with
  | [] => none
  | c :: r =>
    if c == '0' then parseFracPart (sign ++ [c]) r
    else if digitB c then
      parseFracPart (sign ++ c :: r.takeWhile digitB) (r.dropWhile digitB)
    else none

mutual

/-- Parse one JSON value (fuel-indexed so the recursion is structural). -/
def parseValue : Nat → List Char → Option (Json × List Char)
  | 0, _ => none
  | fuel + 1, cs =>
    match skipWs cs with
    | 'n' :: 'u' :: 'l' :: 'l' :: rest => some (.null, rest)
    | 't' :: 'r' :: 'u' :: 'e' :: rest => some (.bool true, rest)
    | 'f' :: 'a' :: 'l' :: 's' :: 'e' :: rest => some (.bool false, rest)
    | '"' :: rest => (parseStringBody rest).map (fun p => (.str p.1, p.2))
    | '[' :: rest =>
      (match skipWs rest with
       | ']' :: rest2 => some (.arr [], rest2)
       | _ => (parseElems fuel (skipWs rest)).map (fun p => (.arr p.1, p.2)))
    | '{' :: rest =>
      (match skipWs rest with
       | '}' :: rest2 => some (.obj [], rest2)
       | _ => (parseMembers fuel (skipWs rest)).map (fun p => (.obj p.1, p.2)))
    | other => (parseNumber other).map (fun p => (.num p.1, p.2))

/-- Parse a non-empty comma-separated list of array elements up to `]`. -/
def parseElems : Nat → List Char → Option (List Json × List Char)
  | 0, _ => none
  | fuel + 1, cs =>
    match parseValue fuel cs with
    | none => none
    | some (v, rest) =>
      match skipWs rest with
      | ',' :: rest2 => (parseElems fuel rest2).map (fun p => (v :: p.1, p.2))
      | ']' :: rest2 => some ([v], rest2)
      | _ => none

/-- Parse a non-empty comma-separated list of object members up to `}`. -/
def parseMembers : Nat → List Char → Option (List (List Char × Json) × List Char)
  | 0, _ => none
  | fuel + 1, cs =>
    match skipWs cs with
    | '"' :: rest =>
      (match parseStringBody rest with
       | none => none
       | some (k, rest1) =>
         match skipWs rest1 with
         | ':' :: rest2 =>
           (match parseValue fuel rest2 with
            | none => none
            | some (v, rest3) =>
              match skipWs rest3 with
              | ',' :: rest4 => (parseMembers fuel rest4).map (fun p => ((k, v) :: p.1, p.2))
              | '}' :: rest4 => some ([(k, v)], rest4)
              | _ => none)
         | _ => none)
    | _ => none

end

/-- Model of `JSON.parse(s)`: parse one value surrounded by JSON whitespace;
any trailing non-whitespace (or a parse error) yields `none` (the thrown
`SyntaxError`, always caught by the callers in `controller.js`). -/
def jsonParse (cs : List Char) : Option Json :=
  match parseValue (cs.length + 1) cs with
  | some (v, rest) => if (skipWs rest).isEmpty then some v else none
  | none => none

/-! ### `extractJsonFromString` (controller.js lines 40-59) -/

/-- The backtick character. -/
def bt : Char := Char.ofNat 96

/-- One global pass of `s.replace(/(three backticks)(?:json)?/g, "")`: at each
position the regex first tries to consume a fenced `json` tag after the three
backticks, otherwise just the backticks; non-matching positions advance one
character, and replacements are never rescanned. -/
def stripJsonFences : List Char → List Char
  | c1 :: c2 :: c3 :: 'j' :: 's' :: 'o' :: 'n' :: rest =>
    if c1 == bt && c2 == bt && c3 == bt then stripJsonFences rest
    else c1 :: stripJsonFences (c2 :: c3 :: 'j' :: 's' :: 'o' :: 'n' :: rest)
  | c1 :: c2 :: c3 :: rest =>
    if c1 == bt && c2 == bt && c3 == bt then stripJsonFences rest
    else c1 :: stripJsonFences (c2 :: c3 :: rest)
  | c1 :: rest => c1 :: stripJsonFences rest
  | [] => []

/-- One global pass of `s.replace(/(three backticks)/g, "")`. -/
def stripBareFences : List Char → List Char
  | c1 :: c2 :: c3 :: rest =>
    if c1 == bt && c2 == bt && c3 == bt then stripBareFences rest
    else c1 :: stripBareFences (c2 :: c3 :: rest)
  | c1 :: rest => c1 :: stripBareFences rest
  | [] => []

/-- The cleaned text `s.replace(/(fence)(?:json)?/g,"").replace(/(fence)/g,"").trim()`. -/
def cleanedOf (s : List Char) : List Char :=
  trimJs (stripBareFences (stripJsonFences s))

/-- The greedy outer-brace salvage `cleaned.match(/\{[\s\S]*\}/)`: the
substring from the first `{` through the last `}` after it, if any. -/
def braceMatch (cs : List Char) : Option (List Char) :=
  match cs.dropWhile (fun c => !(c == '{')) with
  | [] => none
  | c :: tl =>
    match tl.reverse.dropWhile (fun c => !(c == '}')) with
    | [] => none
    | revBody => some (c :: revBody.reverse)

/-- The argument passed to `extractJsonFromString`: `null`/`undefined`, a
non-string value, or a string. -/
inductive JsStrInput where
  | nullish
  | nonString
  | str (s : List Char)

/-- Model of `extractJsonFromString` (controller.js lines 40-59): reject
non-strings and the empty string, strip code fences and trim, then a strict
`JSON.parse`, falling back to the outer-brace salvage parse; every failure
returns `null` (`none`), never an exception. -/
def extractJsonFromString : JsStrInput → Option Json
  | .str s =>
    if s.isEmpty then none
    else
      match jsonParse (cleanedOf s) with
      | some v => some v
      | none =>
        match braceMatch (cleanedOf s) with
        | none => none
        | some sub => jsonParse sub
  | _ => none

/-- Lift of `extractJsonFromString` to an optional response text (the model
call's extracted text is a string or `null`). -/
def extractJsonO (textOut : Option (List Char)) : Option Json :=
  match textOut with
  | none => extractJsonFromString .nullish
  | some s => extractJsonFromString (.str s)

/-- Whether a character list contains a run of three consecutive backticks
(the code-fence marker the cleaning regexes react to). -/
def hasTriple : List Char → Bool
  | c1 :: c2 :: c3 :: rest =>
    (c1 == bt && c2 == bt && c3 == bt) || hasTriple (c2 :: c3 :: rest)
  | _ => false

/-! ### The summary-shape check shared by the per-chunk and combine steps

Models controller.js lines 203-212 and 226-237: the guard
`!parsed || typeof parsed !== "object" || !parsed.summary` followed by
`parsed.summary.trim()`.  A truthy non-string `summary` passes the guard but
then throws a `TypeError` at `.trim()`, which the surrounding `try` turns
into the generic "Failed to process PDF" response. -/

/-- The key `"summary"`. -/
def summaryKey : List Char := "summary".toList

/-- Outcome of checking one recovered value as a summary artifact. -/
inductive SummaryCheck where
  | fail
  | thrown
  | ok (s : List Char)
deriving DecidableEq

/-- The summary validation step: `fail` is the explicit 500 response with the
raw model text attached, `thrown` is the `TypeError` raised by calling
`.trim()` on a truthy non-string, `ok s` carries the trimmed summary. -/
def checkSummary (parsed : Option Json) : SummaryCheck :=
  if !jsTruthyOpt parsed || !jsTypeofObjOpt parsed
      || !jsTruthyOpt (getFieldOpt parsed summaryKey) then .fail
  else
    match getFieldOpt parsed summaryKey with
    | some (.str s) => .ok (trimJs s)
    | _ => .thrown

/-! ### Chunking and the final length cap (controller.js lines 184-188, 241-242) -/

/-- The fixed chunk size `CHUNK_SIZE = 24000`. -/
def CHUNK_SIZE : Nat := 24000

/-- The chunking loop `for (let i = 0; i < text.length; i += CHUNK_SIZE)
chunks.push(text.slice(i, i + CHUNK_SIZE))`, fuel-indexed so the recursion is
structural; `chunkText` supplies enough fuel for every iteration. -/
def chunkLoop (text : List Char) : Nat → Nat → List (List Char)
  | 0, _ => []
  | fuel + 1, i =>
    if i < text.length then
      ((text.drop i).take CHUNK_SIZE) :: chunkLoop text fuel (i + CHUNK_SIZE)
    else []

/-- The chunk plan of the extracted text. -/
def chunkText (text : List Char) : List (List Char) :=
  chunkLoop text (text.length + 1) 0

/-- The final length cap: `if (finalSummary.length > 4000) finalSummary =
finalSummary.slice(0, 3997) + "..."`. -/
def capSummary (s : List Char) : List Char :=
  if 4000 < s.length then s.take 3997 ++ ['.', '.', '.'] else s

/-! ### The PDF pipeline (controller.js lines 151-252) -/

/-- The uploaded file's metadata, as destructured from `req.file`. -/
structure ReqFile where
  originalname : Option (List Char)
  mimetype : Option (List Char)
  size : Nat

/-- The 10 MiB upload ceiling. -/
def MAX_BYTES : Nat := 10 * 1024 * 1024

/-- The PDF type gate (controller.js lines 160-166): the declared mimetype is
`application/pdf`, or the original filename lower-cases to a `.pdf` suffix. -/
def pdfTypeOk (f : ReqFile) : Bool :=
  (f.mimetype == some ("application/pdf".toList)) ||
    (match f.originalname with
     | some name => (".pdf".toList).isSuffixOf (name.map Char.toLower)
     | none => false)

/-- One outbound model call, as observed by the caller: a per-chunk summarize
call (with its chunk index) or the final combine call. -/
inductive Call where
  | chunk (i : Nat)
  | combine
deriving DecidableEq

/-- The response `processPdf` sends, by its source branch. -/
inductive PdfResult where
  | noFile
  | notPdf
  | tooLarge
  | noText
  | chunkFail (raw : Option (List Char))
  | combineFail (raw : Option (List Char))
  | procError
  | ok (summary : List Char)
deriving DecidableEq

/-- Outcome of the per-chunk summarize loop. -/
inductive ChunkPhase where
  | failed (r : PdfResult) (calls : List Call)
  | done (summaries : List (List Char)) (calls : List Call)

/-- The per-chunk summarize loop (controller.js lines 193-213): one model call
per chunk in order; the first failing chunk aborts the loop.  `oracle n` is
the text extracted from the n-th model call's response (`null` or a string);
`i` is the index of the next call. -/
def mapChunks (oracle : Nat → Option (List Char)) :
    List (List Char) → Nat → ChunkPhase
  | [], _ => .done [] []
  | _ :: rest, i =>
    match checkSummary (extractJsonO (oracle i)) with
    | .fail => .failed (.chunkFail (oracle i)) [.chunk i]
    | .thrown => .failed .procError [.chunk i]
    | .ok s =>
      match mapChunks oracle rest (i + 1) with
      | .failed r calls => .failed r (.chunk i :: calls)
      | .done ss calls => .done (s :: ss) (.chunk i :: calls)

/-- The blank-line separator of `chunkSummaries.join("\n\n")`. -/
def joinSummaries (ss : List (List Char)) : List Char :=
  List.intercalate ('\n' :: '\n' :: []) ss

/-- Model of `processPdf`: `extracted` is the text produced by the external
`pdf-parse` collaborator (`data?.text`), `oracle n` the text extracted from
the n-th model-call response.  Returns the response together with the list of
model calls that were issued. -/
def processPdfModel (file : Option ReqFile) (extracted : Option (List Char))
    (oracle : Nat → Option (List Char)) : PdfResult × List Call :=
  match file with
  | none => (.noFile, [])
  | some f =>
    if !pdfTypeOk f then (.notPdf, [])
    else if MAX_BYTES < f.size then (.tooLarge, [])
    else
      let text := trimJs (extracted.getD [])
      if text.isEmpty then (.noText, [])
      else
        let chunks := chunkText text
        match mapChunks oracle chunks 0 with
        | .failed r calls => (r, calls)
        | .done summaries calls =>
          if 1 < summaries.length then
            let textOut := oracle chunks.length
            match checkSummary (extractJsonO textOut) with
            | .fail => (.combineFail textOut, calls ++ [.combine])
            | .thrown => (.procError, calls ++ [.combine])
            | .ok s => (.ok (capSummary s), calls ++ [.combine])
          else (.ok (capSummary (joinSummaries summaries)), calls)

/-! ### The image pipeline (controller.js lines 73-149) -/

/-- The keys `"title"` and `"description"`. -/
def titleKey : List Char := "title".toList

/-- The description key. -/
def descriptionKey : List Char := "description".toList

/-- The response `processImage` sends, by its source branch. -/
inductive ImgResult where
  | noFile
  | notImage
  | tooLarge
  | parseFail (raw : Option (List Char))
  | keysFail (parsed : Json)
  | ok (title : List Char) (description : List Char)

/-- One required image field (controller.js lines 121-128):
`parsed.key && typeof parsed.key === "string" ? parsed.key.trim() : null`. -/
def imgField (parsed : Json) (key : List Char) : Option (List Char) :=
  match getField parsed key with
  | some (.str s) => if s.isEmpty then none else some (trimJs s)
  | _ => none

/-- The required-keys validation of `processImage` (controller.js lines
121-138): both fields must be truthy strings whose trim is non-empty; any
other shape is the "missing or invalid keys" failure carrying the recovered
object. -/
def imageValidate (parsed : Json) : ImgResult :=
  match imgField parsed titleKey, imgField parsed descriptionKey with
  | some t, some d => if t.isEmpty || d.isEmpty then .keysFail parsed else .ok t d
  | _, _ => .keysFail parsed

/-- The uploaded image file's metadata. -/
structure ImgFile where
  mimetype : Option (List Char)
  size : Nat

/-- Model of `processImage`: one model call whose extracted response text is
`textOut`. -/
def processImageModel (file : Option ImgFile) (textOut : Option (List Char)) :
    ImgResult :=
  match file with
  | none => .noFile
  | some f =>
    match f.mimetype with
    | none => .notImage
    | some m =>
      if !(("image/".toList).isPrefixOf m) then .notImage
      else if MAX_BYTES < f.size then .tooLarge
      else
        let parsed := extractJsonO textOut
        if !jsTruthyOpt parsed || !jsTypeofObjOpt parsed then .parseFail textOut
        else
          match parsed with
          | some p => imageValidate p
          | none => .parseFail textOut

/-! ### Lemmas about the chunking loop -/

theorem chunkLoop_zero (text : List Char) (i : Nat) : chunkLoop text 0 i = [] := rfl

theorem chunkLoop_succ (text : List Char) (fuel i : Nat) :
    chunkLoop text (fuel + 1) i =
      if i < text.length then
        ((text.drop i).take CHUNK_SIZE) :: chunkLoop text fuel (i + CHUNK_SIZE)
      else [] := rfl

theorem chunkLoop_stop (text : List Char) (i : Nat) (h : ¬ i < text.length) :
    ∀ fuel, chunkLoop text fuel i = [] := by
  intro fuel
  cases fuel with
  | zero => rfl
  | succ fuel => rw [chunkLoop_succ, if_neg h]

theorem chunkLoop_step (text : List Char) (fuel i : Nat) (h : i < text.length)
    (hf : 0 < fuel) :
    chunkLoop text fuel i =
      ((text.drop i).take CHUNK_SIZE) :: chunkLoop text (fuel - 1) (i + CHUNK_SIZE) := by
  cases fuel with
  | zero => omega
  | succ fuel => rw [chunkLoop_succ, if_pos h]; simp

theorem chunkLoop_ne_nil_lt (text : List Char) (fuel i : Nat)
    (h : chunkLoop text fuel i ≠ []) : i < text.length := by
  by_contra hcon
  exact h (chunkLoop_stop text i hcon fuel)

theorem chunkLoop_join (text : List Char) :
    ∀ fuel i, text.length - i < fuel → (chunkLoop text fuel i).flatten = text.drop i := by
  intro fuel
  induction fuel with
  | zero => intro i h; omega
  | succ fuel ih =>
    intro i h
    rw [chunkLoop_succ]
    by_cases hi : i < text.length
    · rw [if_pos hi, List.flatten_cons, ih (i + CHUNK_SIZE) (by unfold CHUNK_SIZE; omega)]
      rw [← List.drop_drop, List.take_append_drop]
    · rw [if_neg hi, List.flatten_nil, List.drop_eq_nil_of_le (by omega)]

theorem chunkLoop_mem (text : List Char) :
    ∀ fuel i, ∀ c ∈ chunkLoop text fuel i, c ≠ [] ∧ c.length ≤ CHUNK_SIZE := by
  intro fuel
  induction fuel with
  | zero => intro i c hc; simp [chunkLoop_zero] at hc
  | succ fuel ih =>
    intro i c hc
    rw [chunkLoop_succ] at hc
    by_cases hi : i < text.length
    · rw [if_pos hi] at hc
      rcases List.mem_cons.mp hc with hc | hc
      · subst hc
        constructor
        · intro hnil
          have := congrArg List.length hnil
          simp [List.length_take, List.length_drop] at this
          unfold CHUNK_SIZE at this
          omega
        · simp [List.length_take]
      · exact ih (i + CHUNK_SIZE) c hc
    · rw [if_neg hi] at hc; simp at hc

theorem chunkLoop_dropLast (text : List Char) :
    ∀ fuel i, ∀ c ∈ (chunkLoop text fuel i).dropLast, c.length = CHUNK_SIZE := by
  intro fuel
  induction fuel with
  | zero => intro i c hc; simp [chunkLoop_zero] at hc
  | succ fuel ih =>
    intro i c hc
    rw [chunkLoop_succ] at hc
    by_cases hi : i < text.length
    · rw [if_pos hi] at hc
      rcases hrest : chunkLoop text fuel (i + CHUNK_SIZE) with _ | ⟨r, rs⟩
      · rw [hrest] at hc; simp at hc
      · rw [hrest, List.dropLast_cons₂] at hc
        rcases List.mem_cons.mp hc with hc | hc
        · subst hc
          have hlt : i + CHUNK_SIZE < text.length := by
            apply chunkLoop_ne_nil_lt text fuel (i + CHUNK_SIZE)
            rw [hrest]; simp
          simp [List.length_take, List.length_drop]
          omega
        · have := ih (i + CHUNK_SIZE) c
          rw [hrest] at this
          exact this hc
    · rw [if_neg hi] at hc; simp at hc

theorem chunkText_join (text : List Char) : (chunkText text).flatten = text := by
  have := chunkLoop_join text (text.length + 1) 0 (by omega)
  simpa [chunkText] using this

theorem chunkText_single (text : List Char) (h1 : 0 < text.length)
    (h2 : text.length ≤ CHUNK_SIZE) : chunkText text = [text] := by
  unfold chunkText
  rw [chunkLoop_step text _ 0 h1 (by omega), List.drop_zero,
    List.take_of_length_le h2, Nat.zero_add,
    chunkLoop_stop text CHUNK_SIZE (by omega)]

theorem chunkText_double (text : List Char) (h1 : CHUNK_SIZE < text.length)
    (h2 : text.length ≤ 2 * CHUNK_SIZE) :
    chunkText text = [text.take CHUNK_SIZE, text.drop CHUNK_SIZE] := by
  unfold chunkText
  rw [chunkLoop_step text _ 0 (by omega) (by omega), List.drop_zero, Nat.zero_add,
    chunkLoop_step text _ CHUNK_SIZE (by omega) (by omega),
    List.take_of_length_le (l := text.drop CHUNK_SIZE) (by simp [List.length_drop]; omega),
    chunkLoop_stop text (CHUNK_SIZE + CHUNK_SIZE) (by omega)]

/-! ### Lemmas about the per-chunk summarize loop -/

theorem range_map_shift {α : Type} (g : Nat → α) (i n : Nat) :
    (List.range (n + 1)).map (fun k => g (i + k)) =
      g i :: (List.range n).map (fun k => g (i + 1 + k)) := by
  rw [List.range_succ_eq_map, List.map_cons, List.map_map]
  refine congrArg₂ _ (by simp) ?_
  apply List.map_congr_left
  intro k _
  simp only [Function.comp]
  congr 1
  omega

theorem mapChunks_ok (oracle : Nat → Option (List Char)) (g : Nat → List Char) :
    ∀ (chunks : List (List Char)) (i : Nat),
      (∀ k, k < chunks.length →
        checkSummary (extractJsonO (oracle (i + k))) = .ok (g (i + k))) →
      mapChunks oracle chunks i =
        .done ((List.range chunks.length).map (fun k => g (i + k)))
              ((List.range chunks.length).map (fun k => Call.chunk (i + k))) := by
  intro chunks
  induction chunks with
  | nil => intro i h; simp [mapChunks]
  | cons c rest ih =>
    intro i h
    have h0 : checkSummary (extractJsonO (oracle i)) = .ok (g i) := by
      simpa using h 0 (by simp)
    have hshift : ∀ k, k < rest.length →
        checkSummary (extractJsonO (oracle (i + 1 + k))) = .ok (g (i + 1 + k)) := by
      intro k hk
      have := h (k + 1) (by simp; omega)
      rwa [show i + (k + 1) = i + 1 + k by omega] at this
    simp only [mapChunks, h0, ih (i + 1) hshift, List.length_cons]
    rw [range_map_shift g i rest.length, range_map_shift Call.chunk i rest.length]

theorem mapChunks_fail (oracle : Nat → Option (List Char)) (g : Nat → List Char) :
    ∀ (chunks : List (List Char)) (i j : Nat), j < chunks.length →
      (∀ k, k < j → checkSummary (extractJsonO (oracle (i + k))) = .ok (g (i + k))) →
      checkSummary (extractJsonO (oracle (i + j))) = .fail →
      mapChunks oracle chunks i =
        .failed (.chunkFail (oracle (i + j)))
                ((List.range (j + 1)).map (fun k => Call.chunk (i + k))) := by
  intro chunks
  induction chunks with
  | nil => intro i j hj; simp at hj
  | cons c rest ih =>
    intro i j hj hok hfail
    cases j with
    | zero =>
      simp only [Nat.add_zero] at hfail
      simp only [mapChunks, hfail]
      rw [List.range_succ, List.range_zero]
      simp
    | succ j' =>
      have h0 : checkSummary (extractJsonO (oracle i)) = .ok (g i) := by
        simpa using hok 0 (by omega)
      have hshift : ∀ k, k < j' →
          checkSummary (extractJsonO (oracle (i + 1 + k))) = .ok (g (i + 1 + k)) := by
        intro k hk
        have := hok (k + 1) (by omega)
        rwa [show i + (k + 1) = i + 1 + k by omega] at this
      have hfail' : checkSummary (extractJsonO (oracle (i + 1 + j'))) = .fail := by
        rwa [show i + (j' + 1) = i + 1 + j' by omega] at hfail
      have hrec := ih (i + 1) j' (by simpa using hj) hshift hfail'
      simp only [mapChunks, h0, hrec]
      rw [show i + 1 + j' = i + (j' + 1) by omega,
        range_map_shift Call.chunk i (j' + 1)]

theorem mapChunks_failed_form (oracle : Nat → Option (List Char)) :
    ∀ (chunks : List (List Char)) (i : Nat) (r : PdfResult) (calls : List Call),
      mapChunks oracle chunks i = .failed r calls →
      (∃ raw, r = .chunkFail raw) ∨ r = .procError := by
  intro chunks
  induction chunks with
  | nil => intro i r calls h; simp [mapChunks] at h
  | cons c rest ih =>
    intro i r calls h
    simp only [mapChunks] at h
    cases hcs : checkSummary (extractJsonO (oracle i)) with
    | fail =>
      rw [hcs] at h
      cases h
      exact Or.inl ⟨_, rfl⟩
    | thrown =>
      rw [hcs] at h
      cases h
      exact Or.inr rfl
    | ok s =>
      rw [hcs] at h
      cases hrec : mapChunks oracle rest (i + 1) with
      | failed r' calls' =>
        rw [hrec] at h
        cases h
        exact ih (i + 1) _ _ hrec
      | done ss calls' =>
        rw [hrec] at h
        cases h

/-! ### Lemmas about the PDF pipeline -/

theorem joinSummaries_single (s : List Char) : joinSummaries [s] = s := by
  simp [joinSummaries, List.intercalate, List.intersperse_singleton]

theorem processPdf_noText (f : ReqFile) (extracted : Option (List Char))
    (oracle : Nat → Option (List Char)) (hty : pdfTypeOk f = true)
    (hsz : f.size ≤ MAX_BYTES)
    (htext : (trimJs (extracted.getD [])).isEmpty = true) :
    processPdfModel (some f) extracted oracle = (.noText, []) := by
  simp [processPdfModel, hty, htext, if_neg (by omega : ¬ MAX_BYTES < f.size)]

theorem processPdf_fail_at (f : ReqFile) (extracted : Option (List Char))
    (oracle : Nat → Option (List Char)) (g : Nat → List Char) (j : Nat)
    (hty : pdfTypeOk f = true) (hsz : f.size ≤ MAX_BYTES)
    (htext : (trimJs (extracted.getD [])).isEmpty = false)
    (hj : j < (chunkText (trimJs (extracted.getD []))).length)
    (hok : ∀ k, k < j → checkSummary (extractJsonO (oracle k)) = .ok (g k))
    (hfail : checkSummary (extractJsonO (oracle j)) = .fail) :
    processPdfModel (some f) extracted oracle =
      (.chunkFail (oracle j), (List.range (j + 1)).map Call.chunk) := by
  have hm := mapChunks_fail oracle g (chunkText (trimJs (extracted.getD []))) 0 j hj
    (fun k hk => by simpa using hok k hk) (by simpa using hfail)
  simp only [processPdfModel, hty, Bool.not_true, Bool.false_eq_true, if_false,
    if_neg (by omega : ¬ MAX_BYTES < f.size), htext, hm]
  simp

theorem processPdf_single_chunk (f : ReqFile) (extracted : Option (List Char))
    (oracle : Nat → Option (List Char)) (s : List Char)
    (hty : pdfTypeOk f = true) (hsz : f.size ≤ MAX_BYTES)
    (htext : (trimJs (extracted.getD [])).isEmpty = false)
    (hone : (chunkText (trimJs (extracted.getD []))).length = 1)
    (hok : checkSummary (extractJsonO (oracle 0)) = .ok s) :
    processPdfModel (some f) extracted oracle = (.ok (capSummary s), [.chunk 0]) := by
  obtain ⟨c, hc⟩ := List.length_eq_one.mp hone
  have hm : mapChunks oracle (chunkText (trimJs (extracted.getD []))) 0 =
      .done [s] [.chunk 0] := by
    rw [hc]
    simp [mapChunks, hok]
  simp only [processPdfModel, hty, Bool.not_true, Bool.false_eq_true, if_false,
    if_neg (by omega : ¬ MAX_BYTES < f.size), htext, hm]
  simp [joinSummaries_single]

theorem processPdf_ne_notPdf (f : ReqFile) (extracted : Option (List Char))
    (oracle : Nat → Option (List Char)) (hty : pdfTypeOk f = true) :
    (processPdfModel (some f) extracted oracle).1 ≠ .notPdf := by
  simp only [processPdfModel, hty, Bool.not_true, Bool.false_eq_true, if_false]
  by_cases hsz : MAX_BYTES < f.size
  · simp [hsz]
  · simp only [if_neg hsz]
    by_cases htext : (trimJs (extracted.getD [])).isEmpty
    · simp [htext]
    · simp only [htext, Bool.false_eq_true, if_false]
      rcases hm : mapChunks oracle (chunkText (trimJs (extracted.getD []))) 0 with
          ⟨r, calls⟩ | ⟨ss, calls⟩
      · rcases mapChunks_failed_form oracle _ 0 r calls hm with ⟨raw, hr⟩ | hr <;>
          subst hr <;> simp
      · by_cases hlen : 1 < ss.length
        · simp only [if_pos hlen]
          rcases checkSummary (extractJsonO
              (oracle (chunkText (trimJs (extracted.getD []))).length)) <;> simp
        · simp [if_neg hlen]

/-! ### Shared facts about concrete inputs used by witnesses -/

theorem trimJs_replicate_a (n : Nat) :
    trimJs (List.replicate n 'a') = List.replicate n 'a' := by
  have hd : List.dropWhile jsWsB (List.replicate n 'a') = List.replicate n 'a' := by
    cases n with
    | zero => rfl
    | succ n =>
      rw [List.replicate_succ, List.dropWhile_cons]
      simp [show jsWsB 'a' = false from rfl]
  unfold trimJs
  rw [hd, List.reverse_replicate, hd, List.reverse_replicate]

theorem replicate_24001_isEmpty :
    (List.replicate 24001 'a').isEmpty = false := by
  rw [show (24001 : Nat) = 24000 + 1 from rfl, List.replicate_succ]
  rfl

theorem chunkText_replicate_24001 :
    chunkText (List.replicate 24001 'a') =
      [(List.replicate 24001 'a').take CHUNK_SIZE,
       (List.replicate 24001 'a').drop CHUNK_SIZE] :=
  chunkText_double (List.replicate 24001 'a')
    (by rw [List.length_replicate]; decide) (by rw [List.length_replicate]; decide)

theorem replicate_a_ne_nil (n : Nat) (h : n ≠ 0) : List.replicate n 'a' ≠ [] := by
  intro hc
  have hlen := congrArg List.length hc
  rw [List.length_replicate] at hlen
  exact h (by simpa using hlen)

theorem getField_some_obj (j : Json) (key : List Char) (v : Json)
    (h : getField j key = some v) : ∃ fs, j = .obj fs := by
  cases j with
  | obj fields => exact ⟨fields, rfl⟩
  | null => exact Option.noConfusion h
  | bool b => exact Option.noConfusion h
  | num lexeme => exact Option.noConfusion h
  | str s => exact Option.noConfusion h
  | arr elems => exact Option.noConfusion h

/-! ### Claim theorems -/

/-- C1: for every non-empty extracted text, the chunking step produces an
ordered sequence of slices of fixed size 24000 that concatenates back to the
whole text (so the slices are non-overlapping and cover the text exactly once),
with every slice non-empty and at most 24000 characters, all but the last
exactly 24000; a text of exactly 24000 characters yields exactly one chunk
(the text itself), and a text of 24001 characters yields exactly two chunks,
the second of length 1. -/
theorem chunk_plan_correct (text : List Char) (hne : text ≠ []) :
    (chunkText text).flatten = text ∧
    (∀ c ∈ (chunkText text).dropLast, c.length = 24000) ∧
    (∀ c ∈ chunkText text, c ≠ [] ∧ c.length ≤ 24000) ∧
    (text.length = 24000 → chunkText text = [text]) ∧
    (text.length = 24001 →
      chunkText text = [text.take 24000, text.drop 24000] ∧
      (text.drop 24000).length = 1) := by
  refine ⟨chunkText_join text, ?_, ?_, ?_, ?_⟩
  · intro c hc
    have := chunkLoop_dropLast text (text.length + 1) 0 c hc
    simpa [CHUNK_SIZE] using this
  · intro c hc
    have := chunkLoop_mem text (text.length + 1) 0 c hc
    simpa [CHUNK_SIZE] using this
  · intro hl
    have := chunkText_single text (by omega) (by unfold CHUNK_SIZE; omega)
    simpa using this
  · intro hl
    have hd := chunkText_double text (by unfold CHUNK_SIZE; omega)
      (by unfold CHUNK_SIZE; omega)
    refine ⟨by simpa [CHUNK_SIZE] using hd, ?_⟩
    rw [List.length_drop, hl]

/-- Witness for C1 at the concrete text of 24001 repeated characters. -/
theorem chunk_plan_correct_witness :
    chunkText (List.replicate 24001 'a') =
      [(List.replicate 24001 'a').take 24000, (List.replicate 24001 'a').drop 24000] ∧
    ((List.replicate 24001 'a').drop 24000).length = 1 :=
 by
  have h := chunk_plan_correct (List.replicate 24001 'a') (replicate_a_ne_nil 24001 (by omega))
  exact h.2.2.2.2 (by rw [List.length_replicate])

/-- C2: the final cap step leaves summaries of length at most 4000 unchanged,
and truncates any longer summary to its first 3997 characters plus a
3-character ellipsis marker, for a total of exactly 4000 characters. -/
theorem final_summary_cap (s : List Char) :
    (4000 < s.length →
      capSummary s = s.take 3997 ++ ['.', '.', '.'] ∧ (capSummary s).length = 4000) ∧
    (s.length ≤ 4000 → capSummary s = s) := by
  constructor
  · intro h
    constructor
    · unfold capSummary
      rw [if_pos h]
    · unfold capSummary
      rw [if_pos h]
      simp [List.length_take]
      omega
  · intro h
    unfold capSummary
    rw [if_neg (by omega)]

/-- Witness for C2 at a concrete 5000-character summary. -/
theorem final_summary_cap_witness :
    capSummary (List.replicate 5000 'a') =
      (List.replicate 5000 'a').take 3997 ++ ['.', '.', '.'] ∧
    (capSummary (List.replicate 5000 'a')).length = 4000 :=
  (final_summary_cap (List.replicate 5000 'a')).1 (by rw [List.length_replicate]; omega)

/-- C9: a PDF whose extracted text is empty or whitespace-only after trimming
yields the "no extractable text" failure and an empty model-call trace: no
chunk-summarize or combine call is ever issued. -/
theorem empty_text_short_circuits (f : ReqFile) (extracted : Option (List Char))
    (oracle : Nat → Option (List Char)) (hty : pdfTypeOk f = true)
    (hsz : f.size ≤ MAX_BYTES)
    (htext : (trimJs (extracted.getD [])).isEmpty = true) :
    processPdfModel (some f) extracted oracle = (.noText, []) :=
  processPdf_noText f extracted oracle hty hsz htext

/-- Witness for C9 at a concrete whitespace-only extracted text. -/
theorem empty_text_short_circuits_witness :
    processPdfModel
      (some (⟨some ("a.pdf".toList), some ("application/pdf".toList), 5⟩ : ReqFile))
      (some ("  \n ".toList)) (fun _ => some ("\x7b\"summary\": \"s\"\x7d".toList)) =
      (.noText, []) :=
  empty_text_short_circuits _ _ _ (by decide) (by decide) (by decide)

/-- C3: for a document whose extracted text yields exactly one chunk and whose
single chunk summary validates to `s`, the pipeline answers with that chunk's
own summary (after the length cap) and makes exactly one chunk call — the
combine step is never invoked. -/
theorem single_chunk_skips_combine (f : ReqFile) (extracted : Option (List Char))
    (oracle : Nat → Option (List Char)) (s : List Char)
    (hty : pdfTypeOk f = true) (hsz : f.size ≤ MAX_BYTES)
    (htext : (trimJs (extracted.getD [])).isEmpty = false)
    (hone : (chunkText (trimJs (extracted.getD []))).length = 1)
    (hok : checkSummary (extractJsonO (oracle 0)) = .ok s) :
    processPdfModel (some f) extracted oracle = (.ok (capSummary s), [.chunk 0]) ∧
    Call.combine ∉ (processPdfModel (some f) extracted oracle).2 := by
  have h := processPdf_single_chunk f extracted oracle s hty hsz htext hone hok
  refine ⟨h, ?_⟩
  rw [h]
  simp

/-- Witness for C3 at a concrete one-chunk document. -/
theorem single_chunk_skips_combine_witness :
    processPdfModel
      (some (⟨some ("a.pdf".toList), some ("application/pdf".toList), 5⟩ : ReqFile))
      (some ("hello".toList))
      (fun _ => some ("\x7b\"summary\": \" A fine summary. \"\x7d".toList)) =
      (.ok (capSummary ("A fine summary.".toList)), [.chunk 0]) :=
  (single_chunk_skips_combine _ _ _ ("A fine summary.".toList)
    (by decide) (by decide) (by decide) (by decide) (by decide)).1

/-- C10: a file whose declared mimetype is not `application/pdf` but whose
original filename lower-cases to a `.pdf` suffix passes the type gate: the
result is never the "not a PDF" rejection, and (when the size also passes) the
pipeline proceeds to text extraction — e.g. empty extracted text yields the
"no extractable text" failure. -/
theorem pdf_extension_bypasses_mime (f : ReqFile) (extracted : Option (List Char))
    (oracle : Nat → Option (List Char)) (name : List Char)
    (hname : f.originalname = some name)
    (hsuffix : (".pdf".toList).isSuffixOf (name.map Char.toLower) = true)
    (hmime : f.mimetype ≠ some ("application/pdf".toList)) :
    pdfTypeOk f = true ∧
    (processPdfModel (some f) extracted oracle).1 ≠ .notPdf ∧
    (f.size ≤ MAX_BYTES → (trimJs (extracted.getD [])).isEmpty = true →
      processPdfModel (some f) extracted oracle = (.noText, [])) := by
  have hty : pdfTypeOk f = true := by
    unfold pdfTypeOk
    rw [hname]
    show (f.mimetype == some ("application/pdf".toList)
      || (".pdf".toList).isSuffixOf (name.map Char.toLower)) = true
    rw [hsuffix, Bool.or_true]
  exact ⟨hty, processPdf_ne_notPdf f extracted oracle hty,
    fun hsz htext => processPdf_noText f extracted oracle hty hsz htext⟩

/-- Witness for C10 at a concrete upload with mimetype `text/plain` and
filename `REPORT.PDF`. -/
theorem pdf_extension_bypasses_mime_witness :
    pdfTypeOk (⟨some ("REPORT.PDF".toList), some ("text/plain".toList), 5⟩ : ReqFile) = true ∧
    processPdfModel
      (some (⟨some ("REPORT.PDF".toList), some ("text/plain".toList), 5⟩ : ReqFile))
      (some (" ".toList)) (fun _ => none) = (.noText, []) :=
  ⟨(pdf_extension_bypasses_mime _ (some (" ".toList)) (fun _ => none)
      ("REPORT.PDF".toList) rfl (by decide) (by decide)).1,
   (pdf_extension_bypasses_mime _ (some (" ".toList)) (fun _ => none)
      ("REPORT.PDF".toList) rfl (by decide) (by decide)).2.2 (by decide) (by decide)⟩

/-- C4 (amended): when the chunks before index `j` validate and chunk `j`
fails extraction/recovery/validation, the pipeline aborts immediately: the
response is the chunk-parse failure carrying the raw model text of call `j`,
the calls issued are exactly chunks `0..j`, no later chunk call is made, and
the combine step is never invoked.  The failure does not identify which chunk
failed: the response carries only the generic message and the raw text (see
the counterexample). -/
theorem chunk_failure_aborts (f : ReqFile) (extracted : Option (List Char))
    (oracle : Nat → Option (List Char)) (g : Nat → List Char) (j : Nat)
    (hty : pdfTypeOk f = true) (hsz : f.size ≤ MAX_BYTES)
    (htext : (trimJs (extracted.getD [])).isEmpty = false)
    (hj : j < (chunkText (trimJs (extracted.getD []))).length)
    (hok : ∀ k, k < j → checkSummary (extractJsonO (oracle k)) = .ok (g k))
    (hfail : checkSummary (extractJsonO (oracle j)) = .fail) :
    processPdfModel (some f) extracted oracle =
      (.chunkFail (oracle j), (List.range (j + 1)).map Call.chunk) ∧
    Call.combine ∉ (processPdfModel (some f) extracted oracle).2 ∧
    (∀ k, Call.chunk k ∈ (processPdfModel (some f) extracted oracle).2 → k ≤ j) := by
  have h := processPdf_fail_at f extracted oracle g j hty hsz htext hj hok hfail
  refine ⟨h, ?_, ?_⟩
  · rw [h]
    simp
  · rw [h]
    intro k hk
    simp [List.mem_map, List.mem_range] at hk
    omega

/-- Witness for C4 at a concrete two-chunk document whose second chunk fails. -/
theorem chunk_failure_aborts_witness :
    processPdfModel
      (some (⟨some ("a.pdf".toList), some ("application/pdf".toList), 5⟩ : ReqFile))
      (some (List.replicate 24001 'a'))
      (fun n => if n = 0 then some ("\x7b\"summary\": \"ok\"\x7d".toList)
                else some ("zz".toList)) =
      (.chunkFail (some ("zz".toList)), [.chunk 0, .chunk 1]) := by
  have h := (chunk_failure_aborts
    (⟨some ("a.pdf".toList), some ("application/pdf".toList), 5⟩ : ReqFile)
    (some (List.replicate 24001 'a'))
    (fun n => if n = 0 then some ("\x7b\"summary\": \"ok\"\x7d".toList)
              else some ("zz".toList))
    (fun _ => "ok".toList) 1
    (by decide) (by decide)
    (by rw [Option.getD_some, trimJs_replicate_a]; exact replicate_24001_isEmpty)
    (by rw [Option.getD_some, trimJs_replicate_a, chunkText_replicate_24001]; decide)
    (by intro k hk; interval_cases k; decide)
    (by decide)).1
  rw [h]
  rfl

/-- Counterexample for C4: the failure response does not identify which chunk
failed.  Two runs over the same two-chunk document, one failing at chunk 1 and
one failing at chunk 2 (as the call traces show), produce exactly the same
response, so the response cannot identify the failing chunk. -/
theorem chunk_failure_not_identified :
    ((processPdfModel
        (some (⟨some ("a.pdf".toList), some ("application/pdf".toList), 5⟩ : ReqFile))
        (some (List.replicate 24001 'a'))
        (fun _ => some ("zz".toList))).1 =
      (processPdfModel
        (some (⟨some ("a.pdf".toList), some ("application/pdf".toList), 5⟩ : ReqFile))
        (some (List.replicate 24001 'a'))
        (fun n => if n = 0 then some ("\x7b\"summary\": \"ok\"\x7d".toList)
                  else some ("zz".toList))).1) ∧
    (processPdfModel
        (some (⟨some ("a.pdf".toList), some ("application/pdf".toList), 5⟩ : ReqFile))
        (some (List.replicate 24001 'a'))
        (fun _ => some ("zz".toList))).2 = [.chunk 0] ∧
    (processPdfModel
        (some (⟨some ("a.pdf".toList), some ("application/pdf".toList), 5⟩ : ReqFile))
        (some (List.replicate 24001 'a'))
        (fun n => if n = 0 then some ("\x7b\"summary\": \"ok\"\x7d".toList)
                  else some ("zz".toList))).2 = [.chunk 0, .chunk 1] := by
  have hA := processPdf_fail_at
    (⟨some ("a.pdf".toList), some ("application/pdf".toList), 5⟩ : ReqFile)
    (some (List.replicate 24001 'a'))
    (fun _ => some ("zz".toList)) (fun _ => []) 0
    (by decide) (by decide)
    (by rw [Option.getD_some, trimJs_replicate_a]; exact replicate_24001_isEmpty)
    (by rw [Option.getD_some, trimJs_replicate_a, chunkText_replicate_24001]; decide)
    (by intro k hk; omega)
    (by decide)
  have hB := processPdf_fail_at
    (⟨some ("a.pdf".toList), some ("application/pdf".toList), 5⟩ : ReqFile)
    (some (List.replicate 24001 'a'))
    (fun n => if n = 0 then some ("\x7b\"summary\": \"ok\"\x7d".toList)
              else some ("zz".toList))
    (fun _ => "ok".toList) 1
    (by decide) (by decide)
    (by rw [Option.getD_some, trimJs_replicate_a]; exact replicate_24001_isEmpty)
    (by rw [Option.getD_some, trimJs_replicate_a, chunkText_replicate_24001]; decide)
    (by intro k hk; interval_cases k; decide)
    (by decide)
  rw [hA, hB]
  refine ⟨rfl, rfl, rfl⟩

/-- C5 (amended): the per-chunk/combined summary check accepts a recovered
value exactly when it is an object whose `summary` field is a truthy string —
that is, non-empty before trimming — and stores the trimmed field; a
whitespace-only summary is therefore accepted and stored as the empty string
(see the counterexample).  A missing summary, or an absent value, is a
validation failure, while a truthy non-string summary passes the guard and
then throws at `.trim()`, surfacing as the generic processing failure rather
than a validation failure. -/
theorem summary_validation_amended :
    (∀ (j : Json) (raw : List Char),
      getField j summaryKey = some (.str raw) → raw ≠ [] →
      checkSummary (some j) = .ok (trimJs raw)) ∧
    (∀ (j : Json) (s : List Char), checkSummary (some j) = .ok s →
      ∃ raw, getField j summaryKey = some (.str raw) ∧ raw ≠ [] ∧ s = trimJs raw) ∧
    (checkSummary none = .fail) ∧
    (∀ (j : Json), getField j summaryKey = none → checkSummary (some j) = .fail) ∧
    (∀ (j : Json) (v : Json), getField j summaryKey = some v → jsTruthy v = true →
      (∀ raw, v ≠ .str raw) → checkSummary (some j) = .thrown) := by
  refine ⟨?_, ?_, rfl, ?_, ?_⟩
  · intro j raw hf hraw
    obtain ⟨fs, rfl⟩ := getField_some_obj j summaryKey _ hf
    have hfopt : getFieldOpt (some (Json.obj fs)) summaryKey = some (.str raw) := by
      simp [getFieldOpt, hf]
    have hraw' : raw.isEmpty = false := by
      cases raw
      · simp at hraw
      · rfl
    unfold checkSummary
    rw [hfopt]
    simp [jsTruthyOpt, jsTypeofObjOpt, jsTruthy, jsTypeofObj, hraw']
  · intro j s h
    unfold checkSummary at h
    by_cases hcond : (!jsTruthyOpt (some j) || !jsTypeofObjOpt (some j)
        || !jsTruthyOpt (getFieldOpt (some j) summaryKey)) = true
    · rw [if_pos hcond] at h
      exact absurd h (by simp)
    · rw [if_neg hcond] at h
      rcases hv : getFieldOpt (some j) summaryKey with _ | v
      · rw [hv] at h
        simp at h
      · cases v with
        | str s₀ =>
          rw [hv] at h
          have hget : getField j summaryKey = some (.str s₀) := by
            simpa [getFieldOpt] using hv
          have htr : jsTruthyOpt (getFieldOpt (some j) summaryKey) = true := by
            by_contra hft
            apply hcond
            simp only [Bool.not_eq_true] at hft
            simp [hft]
          rw [hv] at htr
          have hne : s₀ ≠ [] := by
            intro hnil
            subst hnil
            simp [jsTruthyOpt, jsTruthy] at htr
          refine ⟨s₀, hget, hne, ?_⟩
          injection h with h'
          exact h'.symm
        | null => rw [hv] at h; simp at h
        | bool b => rw [hv] at h; simp at h
        | num lexeme => rw [hv] at h; simp at h
        | arr elems => rw [hv] at h; simp at h
        | obj fields => rw [hv] at h; simp at h
  · intro j hf
    have hfopt : getFieldOpt (some j) summaryKey = none := by
      simp [getFieldOpt, hf]
    unfold checkSummary
    rw [hfopt]
    simp [jsTruthyOpt]
  · intro j v hf htr hnstr
    obtain ⟨fs, rfl⟩ := getField_some_obj _ _ _ hf
    have hfopt : getFieldOpt (some (Json.obj fs)) summaryKey = some v := by
      simp [getFieldOpt, hf]
    cases v with
    | str s₀ => exact absurd rfl (hnstr s₀)
    | null => simp [jsTruthy] at htr
    | bool b =>
      unfold checkSummary
      rw [hfopt]
      simp [jsTruthy] at htr
      simp [jsTruthyOpt, jsTypeofObjOpt, jsTruthy, jsTypeofObj, htr]
    | num lexeme =>
      have hz : numIsZero lexeme = false := by simpa [jsTruthy] using htr
      unfold checkSummary
      rw [hfopt]
      simp [jsTruthyOpt, jsTypeofObjOpt, jsTruthy, jsTypeofObj, hz]
    | arr elems =>
      unfold checkSummary
      rw [hfopt]
      simp [jsTruthyOpt, jsTypeofObjOpt, jsTruthy, jsTypeofObj]
    | obj fields =>
      unfold checkSummary
      rw [hfopt]
      simp [jsTruthyOpt, jsTypeofObjOpt, jsTruthy, jsTypeofObj]

/-- Counterexample for C5: a whitespace-only `summary` is truthy, so the check
accepts it — contrary to the claim that a value trimming to the empty string
is rejected — and the stored summary is the empty string after trimming; a
full pipeline run over such a response returns the empty final summary. -/
theorem whitespace_summary_accepted :
    checkSummary (some (Json.obj [(summaryKey, Json.str ("   ".toList))])) = .ok [] ∧
    processPdfModel
      (some (⟨some ("a.pdf".toList), some ("application/pdf".toList), 5⟩ : ReqFile))
      (some ("x".toList))
      (fun _ => some ("\x7b\"summary\": \"   \"\x7d".toList)) = (.ok [], [.chunk 0]) :=
  ⟨by decide, by decide⟩

/-- Witness for the amended C5 theorem at a concrete accepted summary. -/
theorem summary_validation_amended_witness :
    checkSummary (some (Json.obj [(summaryKey, Json.str (" ok ".toList))])) =
      .ok (trimJs (" ok ".toList)) :=
  summary_validation_amended.1 _ _ rfl (by decide)

theorem isEmpty_false_of_ne_nil {α : Type} {l : List α} (h : l ≠ []) :
    l.isEmpty = false := by
  cases l with
  | nil => exact absurd rfl h
  | cons a tl => rfl

theorem ne_nil_of_isEmpty_false {α : Type} {l : List α} (h : l.isEmpty = false) :
    l ≠ [] := by
  cases l with
  | nil => exact absurd h (by simp)
  | cons a tl => simp

theorem imgField_eq_some (p : Json) (key : List Char) (t : List Char)
    (h : imgField p key = some t) :
    ∃ raw, getField p key = some (.str raw) ∧ raw ≠ [] ∧ t = trimJs raw := by
  unfold imgField at h
  rcases hg : getField p key with _ | v <;> rw [hg] at h
  · exact Option.noConfusion h
  · cases v with
    | str s =>
      dsimp only at h
      by_cases hs : s.isEmpty
      · rw [if_pos hs] at h
        exact Option.noConfusion h
      · rw [if_neg hs] at h
        injection h with h'
        exact ⟨s, rfl, ne_nil_of_isEmpty_false (by simpa using hs), h'.symm⟩
    | null => exact Option.noConfusion h
    | bool b => exact Option.noConfusion h
    | num lexeme => exact Option.noConfusion h
    | arr elems => exact Option.noConfusion h
    | obj fields => exact Option.noConfusion h

/-- C6: the image artifact validation accepts a recovered object exactly when
both `title` and `description` are truthy strings whose trims are non-empty,
and then returns both fields trimmed; a missing `description` (e.g. an object
carrying only `title`) is always the "missing or invalid keys" failure — one
valid field without the other is never a partial success.  Concretely, an
object with only `title: "x"` is rejected, and `title: " x "`,
`description: " y "` is accepted as the trimmed pair.  When the model reply
recovers to an object, the image pipeline answers exactly with this
validation's result. -/
theorem image_artifact_validation :
    (∀ (p : Json) (t d : List Char),
      getField p titleKey = some (.str t) → trimJs t ≠ [] →
      getField p descriptionKey = some (.str d) → trimJs d ≠ [] →
      imageValidate p = .ok (trimJs t) (trimJs d)) ∧
    (∀ (p : Json) (t d : List Char), imageValidate p = .ok t d →
      ∃ rawt rawd, getField p titleKey = some (.str rawt) ∧
        getField p descriptionKey = some (.str rawd) ∧
        t = trimJs rawt ∧ d = trimJs rawd ∧ t ≠ [] ∧ d ≠ []) ∧
    (∀ (p : Json), getField p descriptionKey = none → imageValidate p = .keysFail p) ∧
    (imageValidate (Json.obj [(titleKey, Json.str ('x' :: []))]) =
      .keysFail (Json.obj [(titleKey, Json.str ('x' :: []))])) ∧
    (imageValidate (Json.obj [(titleKey, Json.str (" x ".toList)),
        (descriptionKey, Json.str (" y ".toList))]) = .ok ('x' :: []) ('y' :: [])) ∧
    (∀ (f : ImgFile) (m : List Char) (textOut : Option (List Char))
        (fs : List (List Char × Json)),
      f.mimetype = some m → ("image/".toList).isPrefixOf m = true →
      f.size ≤ MAX_BYTES → extractJsonO textOut = some (.obj fs) →
      processImageModel (some f) textOut = imageValidate (.obj fs)) := by
  refine ⟨?_, ?_, ?_, rfl, rfl, ?_⟩
  · intro p t d ht htne hd hdne
    have htn : t ≠ [] := by
      intro hc
      subst hc
      exact htne rfl
    have hdn : d ≠ [] := by
      intro hc
      subst hc
      exact hdne rfl
    have h1 : imgField p titleKey = some (trimJs t) := by
      unfold imgField
      rw [ht]
      dsimp only
      rw [if_neg (by simp [isEmpty_false_of_ne_nil htn])]
    have h2 : imgField p descriptionKey = some (trimJs d) := by
      unfold imgField
      rw [hd]
      dsimp only
      rw [if_neg (by simp [isEmpty_false_of_ne_nil hdn])]
    unfold imageValidate
    rw [h1, h2]
    dsimp only
    rw [if_neg (by simp [isEmpty_false_of_ne_nil htne,
      isEmpty_false_of_ne_nil hdne])]
  · intro p t d h
    unfold imageValidate at h
    rcases h1 : imgField p titleKey with _ | t₀ <;> rw [h1] at h
    · exact absurd h (by simp)
    · rcases h2 : imgField p descriptionKey with _ | d₀ <;> rw [h2] at h
      · exact absurd h (by simp)
      · have h' : (if (t₀.isEmpty || d₀.isEmpty) = true then ImgResult.keysFail p
            else ImgResult.ok t₀ d₀) = ImgResult.ok t d := h
        by_cases hcond : (t₀.isEmpty || d₀.isEmpty) = true
        · rw [if_pos hcond] at h'
          exact absurd h' (by simp)
        · rw [if_neg hcond] at h'
          have hcond' := Bool.or_eq_false_iff.mp (Bool.eq_false_iff.mpr hcond)
          obtain ⟨rawt, hgt, hrt, het⟩ := imgField_eq_some p titleKey t₀ h1
          obtain ⟨rawd, hgd, hrd, hed⟩ := imgField_eq_some p descriptionKey d₀ h2
          injection h' with ht' hd'
          exact ⟨rawt, rawd, hgt, hgd, by rw [← ht', het], by rw [← hd', hed],
            ht' ▸ ne_nil_of_isEmpty_false hcond'.1,
            hd' ▸ ne_nil_of_isEmpty_false hcond'.2⟩
  · intro p hd
    have h2 : imgField p descriptionKey = none := by
      unfold imgField
      rw [hd]
    unfold imageValidate
    rw [h2]
    rcases h1 : imgField p titleKey with _ | t₀ <;> rfl
  · intro f m textOut fs hm hpre hsz hp
    have hsz' : ¬ MAX_BYTES < f.size := by omega
    simp only [processImageModel, hm, hpre, hp]
    simp [jsTruthyOpt, jsTypeofObjOpt, jsTruthy, jsTypeofObj, hsz']

/-- Witness for C6 at a concrete object with padded title and description. -/
theorem image_artifact_validation_witness :
    imageValidate (Json.obj [(titleKey, Json.str (" x ".toList)),
        (descriptionKey, Json.str (" y ".toList))]) =
      .ok (trimJs (" x ".toList)) (trimJs (" y ".toList)) :=
  image_artifact_validation.1 _ (" x ".toList) (" y ".toList)
    rfl (by decide) rfl (by decide)

/-! ### Lemmas about the code-fence stripping passes -/

theorem hasTriple_tail (a : Char) (cs : List Char)
    (h : hasTriple (a :: cs) = false) : hasTriple cs = false := by
  rcases cs with _ | ⟨b, _ | ⟨c, tl⟩⟩
  · rfl
  · rfl
  · have hx : hasTriple (a :: b :: c :: tl) =
        ((a == bt && b == bt && c == bt) || hasTriple (b :: c :: tl)) := rfl
    rw [hx] at h
    exact (Bool.or_eq_false_iff.mp h).2

theorem hasTriple_head_false (a b c : Char) (tl : List Char)
    (h : hasTriple (a :: b :: c :: tl) = false) :
    (a == bt && b == bt && c == bt) = false := by
  have hx : hasTriple (a :: b :: c :: tl) =
      ((a == bt && b == bt && c == bt) || hasTriple (b :: c :: tl)) := rfl
  rw [hx] at h
  exact (Bool.or_eq_false_iff.mp h).1

theorem hasTriple_cons_false (a : Char) (ha : (a == bt) = false) (cs : List Char)
    (h : hasTriple cs = false) : hasTriple (a :: cs) = false := by
  rcases cs with _ | ⟨b, _ | ⟨c, tl⟩⟩
  · rfl
  · rfl
  · have hx : hasTriple (a :: b :: c :: tl) =
        ((a == bt && b == bt && c == bt) || hasTriple (b :: c :: tl)) := rfl
    rw [hx, ha, h]
    rfl

theorem hasTriple_append_single (c : Char) (hc : (c == bt) = false) :
    ∀ (cs : List Char), hasTriple cs = false → hasTriple (cs ++ [c]) = false := by
  intro cs
  induction cs with
  | nil => intro _; rfl
  | cons a tl ih =>
    rcases tl with _ | ⟨b, _ | ⟨d, tl3⟩⟩
    · intro _; rfl
    · intro _
      have hx : hasTriple ([a, b] ++ [c]) =
          ((a == bt && b == bt && c == bt) || hasTriple [b, c]) := rfl
      rw [hx, hc, show hasTriple [b, c] = false from rfl]
      simp
    · intro h
      have hrec := ih (hasTriple_tail a _ h)
      have hx : hasTriple ((a :: b :: d :: tl3) ++ [c]) =
          ((a == bt && b == bt && d == bt) || hasTriple ((b :: d :: tl3) ++ [c])) := rfl
      rw [hx, hasTriple_head_false a b d tl3 h, hrec]
      rfl

theorem stripJson_peel3 (c1 c2 c3 : Char) (rest : List Char)
    (hcond : (c1 == bt && c2 == bt && c3 == bt) = false) :
    stripJsonFences (c1 :: c2 :: c3 :: rest) =
      c1 :: stripJsonFences (c2 :: c3 :: rest) := by
  by_cases hj : ∃ r, rest = 'j' :: 's' :: 'o' :: 'n' :: r
  · obtain ⟨r, rfl⟩ := hj
    rw [stripJsonFences.eq_1]
    simp [hcond]
  · rw [stripJsonFences.eq_2 c1 c2 c3 rest (fun r hr => hj ⟨r, hr⟩)]
    simp [hcond]

theorem stripBare_peel3 (c1 c2 c3 : Char) (rest : List Char)
    (hcond : (c1 == bt && c2 == bt && c3 == bt) = false) :
    stripBareFences (c1 :: c2 :: c3 :: rest) =
      c1 :: stripBareFences (c2 :: c3 :: rest) := by
  rw [stripBareFences.eq_1]
  simp [hcond]

theorem stripBare_id (cs : List Char) (h : hasTriple cs = false) :
    stripBareFences cs = cs := by
  induction cs with
  | nil => rfl
  | cons a tl ih =>
    rcases tl with _ | ⟨b, _ | ⟨c, tl3⟩⟩
    · rfl
    · rfl
    · rw [stripBare_peel3 a b c tl3 (hasTriple_head_false a b c tl3 h),
        ih (hasTriple_tail a _ h)]

theorem strip_json_append (cs : List Char) (h : hasTriple cs = false) :
    stripJsonFences (cs ++ '\n' :: [bt, bt, bt]) = cs ++ ['\n'] := by
  induction cs with
  | nil => rfl
  | cons a tl ih =>
    have htl : hasTriple tl = false := hasTriple_tail a tl h
    have hstep : stripJsonFences ((a :: tl) ++ '\n' :: [bt, bt, bt]) =
        a :: stripJsonFences (tl ++ '\n' :: [bt, bt, bt]) := by
      rcases tl with _ | ⟨b, _ | ⟨c, tl3⟩⟩
      · exact stripJson_peel3 a '\n' bt [bt, bt]
          (by simp [show (('\n' : Char) == bt) = false from by decide])
      · exact stripJson_peel3 a b '\n' [bt, bt, bt]
          (by simp [show (('\n' : Char) == bt) = false from by decide])
      · exact stripJson_peel3 a b c (tl3 ++ '\n' :: [bt, bt, bt])
          (hasTriple_head_false a b c tl3 h)
    rw [hstep, ih htl]
    rfl

/-! ### Lemmas about `trim` around a fenced body -/

theorem dropWhile_length_eq (p : Char → Bool) (l : List Char)
    (h : (l.dropWhile p).length = l.length) : l.dropWhile p = l := by
  induction l with
  | nil => rfl
  | cons a tl ih =>
    rw [List.dropWhile_cons] at h ⊢
    by_cases hp : p a = true
    · rw [if_pos hp] at h
      have := (List.dropWhile_sublist (l := tl) p).length_le
      simp at h
      omega
    · rw [if_neg hp]

theorem trimJs_eq_self (cs : List Char) (h : trimJs cs = cs) :
    cs.dropWhile jsWsB = cs ∧ cs.reverse.dropWhile jsWsB = cs.reverse := by
  have hlen := congrArg List.length h
  unfold trimJs at hlen
  have l1 := (List.dropWhile_sublist (l := cs) jsWsB).length_le
  have l2 := (List.dropWhile_sublist (l := (cs.dropWhile jsWsB).reverse) jsWsB).length_le
  simp only [List.length_reverse] at hlen l2
  have h1 : cs.dropWhile jsWsB = cs := dropWhile_length_eq _ _ (by omega)
  refine ⟨h1, ?_⟩
  unfold trimJs at h
  rw [h1] at h
  have := congrArg List.reverse h
  simpa using this

theorem trim_wrap (content : List Char) (hne : content ≠ [])
    (h1 : content.dropWhile jsWsB = content)
    (h2 : content.reverse.dropWhile jsWsB = content.reverse) :
    trimJs ('\n' :: content ++ ['\n']) = content := by
  obtain ⟨c, tl, rfl⟩ : ∃ c tl, content = c :: tl := by
    rcases content with _ | ⟨c, tl⟩
    · exact absurd rfl hne
    · exact ⟨c, tl, rfl⟩
  have hc : jsWsB c = false := by
    by_cases hp : jsWsB c = true
    · rw [List.dropWhile_cons, if_pos hp] at h1
      have := (List.dropWhile_sublist (l := tl) jsWsB).length_le
      have := congrArg List.length h1
      simp at this
      omega
    · exact Bool.eq_false_iff.mpr hp
  unfold trimJs
  have step1 : List.dropWhile jsWsB ('\n' :: (c :: tl) ++ ['\n']) =
      (c :: tl) ++ ['\n'] := by
    rw [List.cons_append, List.dropWhile_cons,
      if_pos (show jsWsB '\n' = true from rfl), List.cons_append,
      List.dropWhile_cons, if_neg (by rw [hc]; simp)]
  rw [step1]
  have hrev : ((c :: tl) ++ ['\n']).reverse = '\n' :: (c :: tl).reverse := by
    rw [List.reverse_append]
    rfl
  rw [hrev, List.dropWhile_cons, if_pos (show jsWsB '\n' = true from rfl), h2]
  simp

/-! ### C7 and C8: JSON recovery from fenced and noisy text -/

/-- C7 (amended): for every JSON text that contains no triple-backtick run,
wrapped in a code fence on its own lines — with or without the `json` language
tag — `extractJsonFromString` returns exactly the value a direct strict
`JSON.parse` of the unfenced content yields.  The no-triple-backtick proviso
is forced by the counterexample: the cleaning pass removes fence markers
anywhere in the string, including inside JSON string literals. -/
theorem fenced_json_recovery (content : List Char) (v : Json)
    (hfence : hasTriple content = false)
    (htrim : trimJs content = content)
    (hparse : jsonParse content = some v) :
    extractJsonFromString (.str ((bt :: bt :: bt :: 'j' :: 's' :: 'o' :: 'n' :: '\n' :: content)
      ++ '\n' :: [bt, bt, bt])) = some v ∧
    extractJsonFromString (.str ((bt :: bt :: bt :: '\n' :: content)
      ++ '\n' :: [bt, bt, bt])) = some v := by
  have hne : content ≠ [] := by
    rintro rfl
    rw [show jsonParse [] = none from rfl] at hparse
    exact Option.noConfusion hparse
  obtain ⟨h1, h2⟩ := trimJs_eq_self content htrim
  have hinner := strip_json_append ('\n' :: content)
    (hasTriple_cons_false '\n' (by decide) content hfence)
  have hbare : stripBareFences ('\n' :: content ++ ['\n']) =
      '\n' :: content ++ ['\n'] := by
    apply stripBare_id
    exact hasTriple_cons_false '\n' (by decide) _
      (hasTriple_append_single '\n' (by decide) content hfence)
  have htrimw : trimJs ('\n' :: content ++ ['\n']) = content :=
    trim_wrap content hne h1 h2
  constructor
  · have hJ : stripJsonFences ((bt :: bt :: bt :: 'j' :: 's' :: 'o' :: 'n' :: '\n' :: content)
        ++ '\n' :: [bt, bt, bt]) = '\n' :: content ++ ['\n'] := by
      have hx : ((bt :: bt :: bt :: 'j' :: 's' :: 'o' :: 'n' :: '\n' :: content)
          ++ '\n' :: [bt, bt, bt]) =
          bt :: bt :: bt :: 'j' :: 's' :: 'o' :: 'n' ::
            (('\n' :: content) ++ '\n' :: [bt, bt, bt]) := by
        simp
      rw [hx, stripJsonFences.eq_1, if_pos (by decide), hinner]
    have hclean : cleanedOf ((bt :: bt :: bt :: 'j' :: 's' :: 'o' :: 'n' :: '\n' :: content)
        ++ '\n' :: [bt, bt, bt]) = content := by
      unfold cleanedOf
      rw [hJ, hbare, htrimw]
    have hres : extractJsonFromString (.str ((bt :: bt :: bt :: 'j' :: 's' :: 'o' :: 'n'
          :: '\n' :: content) ++ '\n' :: [bt, bt, bt])) =
        (match jsonParse (cleanedOf ((bt :: bt :: bt :: 'j' :: 's' :: 'o' :: 'n'
            :: '\n' :: content) ++ '\n' :: [bt, bt, bt])) with
         | some w => some w
         | none =>
           (match braceMatch (cleanedOf ((bt :: bt :: bt :: 'j' :: 's' :: 'o' :: 'n'
               :: '\n' :: content) ++ '\n' :: [bt, bt, bt])) with
            | none => none
            | some sub => jsonParse sub)) := rfl
    rw [hres, hclean, hparse]
  · have hB : stripJsonFences ((bt :: bt :: bt :: '\n' :: content)
        ++ '\n' :: [bt, bt, bt]) = '\n' :: content ++ ['\n'] := by
      have hx : ((bt :: bt :: bt :: '\n' :: content) ++ '\n' :: [bt, bt, bt]) =
          bt :: bt :: bt :: (('\n' :: content) ++ '\n' :: [bt, bt, bt]) := by
        simp
      rw [hx, stripJsonFences.eq_2 bt bt bt (('\n' :: content) ++ '\n' :: [bt, bt, bt])
        (by intro r hr; rw [List.cons_append] at hr; exact absurd (List.head_eq_of_cons_eq hr) (by decide))]
      rw [if_pos (by decide), hinner]
    have hclean : cleanedOf ((bt :: bt :: bt :: '\n' :: content)
        ++ '\n' :: [bt, bt, bt]) = content := by
      unfold cleanedOf
      rw [hB, hbare, htrimw]
    have hres : extractJsonFromString (.str ((bt :: bt :: bt
          :: '\n' :: content) ++ '\n' :: [bt, bt, bt])) =
        (match jsonParse (cleanedOf ((bt :: bt :: bt
            :: '\n' :: content) ++ '\n' :: [bt, bt, bt])) with
         | some w => some w
         | none =>
           (match braceMatch (cleanedOf ((bt :: bt :: bt
               :: '\n' :: content) ++ '\n' :: [bt, bt, bt])) with
            | none => none
            | some sub => jsonParse sub)) := rfl
    rw [hres, hclean, hparse]

/-- Witness for C7 at a concrete fenced JSON object. -/
theorem fenced_json_recovery_witness :
    extractJsonFromString (.str ((bt :: bt :: bt :: 'j' :: 's' :: 'o' :: 'n' :: '\n'
        :: ("\x7b\"a\": 1\x7d".toList)) ++ '\n' :: [bt, bt, bt])) =
      some (.obj [("a".toList, .num ('1' :: []))]) :=
  (fenced_json_recovery ("\x7b\"a\": 1\x7d".toList) (.obj [("a".toList, .num ('1' :: []))])
    (by decide) (by decide) rfl).1

/-- Counterexample for C7: a fenced JSON text whose string literal contains a
triple-backtick run.  The cleaning pass deletes the backticks inside the
string literal, so the recovered value differs from the strict parse of the
unfenced content. -/
theorem fenced_backtick_content_counterexample :
    extractJsonFromString (.str ("```json\n\x7b\"a\": \"x```y\"\x7d\n```".toList)) =
      some (.obj [("a".toList, .str ("xy".toList))]) ∧
    jsonParse ("\x7b\"a\": \"x```y\"\x7d".toList) =
      some (.obj [("a".toList, .str ("x```y".toList))]) ∧
    extractJsonFromString (.str ("```json\n\x7b\"a\": \"x```y\"\x7d\n```".toList)) ≠
      jsonParse ("\x7b\"a\": \"x```y\"\x7d".toList) := by
  refine ⟨rfl, rfl, ?_⟩
  intro h
  have hx := congrArg (fun o => match o with
    | some (Json.obj ((_, Json.str s) :: _)) => s
    | _ => ([] : List Char)) h
  exact absurd hx (by decide)

/-! ### Characters of the cleaned text come from the input -/

theorem stripBareFences_subset : ∀ (cs : List Char) (ch : Char),
    ch ∈ stripBareFences cs → ch ∈ cs
  | [], _, h => absurd h (by simp [stripBareFences])
  | [c1], _, h => h
  | [c1, c2], _, h => h
  | c1 :: c2 :: c3 :: rest, ch, h => by
    by_cases hcond : (c1 == bt && c2 == bt && c3 == bt) = true
    · rw [stripBareFences.eq_1, if_pos hcond] at h
      have := stripBareFences_subset rest ch h
      simp only [List.mem_cons] at this ⊢
      tauto
    · rw [stripBareFences.eq_1, if_neg hcond] at h
      rcases List.mem_cons.mp h with h' | h'
      · simp [h']
      · have := stripBareFences_subset (c2 :: c3 :: rest) ch h'
        simp only [List.mem_cons] at this ⊢
        tauto

theorem stripJsonFences_subset : ∀ (cs : List Char) (ch : Char),
    ch ∈ stripJsonFences cs → ch ∈ cs
  | [], _, h => absurd h (by simp [stripJsonFences])
  | [c1], _, h => h
  | [c1, c2], _, h => h
  | c1 :: c2 :: c3 :: rest, ch, h => by
    by_cases hjson : ∃ r, rest = 'j' :: 's' :: 'o' :: 'n' :: r
    · obtain ⟨r, rfl⟩ := hjson
      by_cases hcond : (c1 == bt && c2 == bt && c3 == bt) = true
      · rw [stripJsonFences.eq_1, if_pos hcond] at h
        have := stripJsonFences_subset r ch h
        simp only [List.mem_cons] at this ⊢
        tauto
      · rw [stripJsonFences.eq_1, if_neg hcond] at h
        rcases List.mem_cons.mp h with h' | h'
        · simp [h']
        · have := stripJsonFences_subset (c2 :: c3 :: 'j' :: 's' :: 'o' :: 'n' :: r) ch h'
          simp only [List.mem_cons] at this ⊢
          tauto
    · have hg : ∀ r, rest = 'j' :: 's' :: 'o' :: 'n' :: r → False :=
        fun r hr => hjson ⟨r, hr⟩
      by_cases hcond : (c1 == bt && c2 == bt && c3 == bt) = true
      · rw [stripJsonFences.eq_2 c1 c2 c3 rest hg, if_pos hcond] at h
        have := stripJsonFences_subset rest ch h
        simp only [List.mem_cons] at this ⊢
        tauto
      · rw [stripJsonFences.eq_2 c1 c2 c3 rest hg, if_neg hcond] at h
        rcases List.mem_cons.mp h with h' | h'
        · simp [h']
        · have := stripJsonFences_subset (c2 :: c3 :: rest) ch h'
          simp only [List.mem_cons] at this ⊢
          tauto

theorem trimJs_subset (ch : Char) (cs : List Char) (h : ch ∈ trimJs cs) : ch ∈ cs := by
  unfold trimJs at h
  rw [List.mem_reverse] at h
  have h2 := (List.dropWhile_sublist (l := (cs.dropWhile jsWsB).reverse) jsWsB).subset h
  rw [List.mem_reverse] at h2
  exact (List.dropWhile_sublist (l := cs) jsWsB).subset h2

theorem cleanedOf_subset (ch : Char) (s : List Char) (h : ch ∈ cleanedOf s) : ch ∈ s := by
  unfold cleanedOf at h
  exact stripJsonFences_subset s ch
    (stripBareFences_subset (stripJsonFences s) ch (trimJs_subset ch _ h))

theorem braceMatch_none (cs : List Char) (h : '{' ∉ cs) : braceMatch cs = none := by
  unfold braceMatch
  have hd : cs.dropWhile (fun c => !(c == '{')) = [] := by
    rw [List.dropWhile_eq_nil_iff]
    intro x hx
    simp only [Bool.not_eq_true']
    rw [beq_eq_false_iff_ne]
    intro hxeq
    exact h (hxeq ▸ hx)
  rw [hd]

theorem extract_none_of_both_fail (s : List Char)
    (hp : jsonParse (cleanedOf s) = none)
    (hb : braceMatch (cleanedOf s) = none) :
    extractJsonFromString (.str s) = none := by
  cases s with
  | nil => rfl
  | cons a tl =>
    have hres : extractJsonFromString (.str (a :: tl)) =
        (match jsonParse (cleanedOf (a :: tl)) with
         | some w => some w
         | none =>
           (match braceMatch (cleanedOf (a :: tl)) with
            | none => none
            | some sub => jsonParse sub)) := rfl
    rw [hres, hp, hb]

/-- C8 (amended): `extractJsonFromString` is a total function (never throws);
it returns `null` when the input is `null`, a non-string value, or the empty
string, and `null` whenever both the strict parse of the cleaned text and the
first-`{`-to-last-`}` salvage parse fail — in particular for brace-free text
whose cleaned form also fails the strict parse.  A brace-free text can
however strict-parse (e.g. `true`) and is then returned, so "no braces"
alone does not force `null` (see the counterexample). -/
theorem json_recovery_null :
    (extractJsonFromString .nullish = none) ∧
    (extractJsonFromString .nonString = none) ∧
    (extractJsonFromString (.str []) = none) ∧
    (∀ s : List Char, jsonParse (cleanedOf s) = none →
      braceMatch (cleanedOf s) = none → extractJsonFromString (.str s) = none) ∧
    (∀ s : List Char, '{' ∉ s → jsonParse (cleanedOf s) = none →
      extractJsonFromString (.str s) = none) := by
  refine ⟨rfl, rfl, rfl, extract_none_of_both_fail, ?_⟩
  intro s hbrace hp
  apply extract_none_of_both_fail s hp
  apply braceMatch_none
  intro hc
  exact hbrace (cleanedOf_subset '{' s hc)

/-- Witness for C8 at a concrete brace-free non-JSON text. -/
theorem json_recovery_null_witness :
    extractJsonFromString (.str ("no json here".toList)) = none :=
  json_recovery_null.2.2.2.2 ("no json here".toList) (by decide) rfl

/-- Counterexample for C8: a text with no `{` or `}` at all for which
`extractJsonFromString` does not return `null` — the cleaned text `true`
strict-parses, so the recovered value is the boolean `true`. -/
theorem braceless_true_recovered :
    ('{' ∉ ("true".toList)) ∧ ('}' ∉ ("true".toList)) ∧
    extractJsonFromString (.str ("true".toList)) = some (.bool true) :=
  ⟨by decide, by decide, rfl⟩

end AiSummarizer
